import Mathlib

/-!
Verification development for the tile-format encoding core
(`src/CDBTo3DTiles/src/TileFormatIO.cpp` of the `cdb-to-3dtiles` repository).

Shallow embedding conventions:
* Machine integers are modelled as `Nat`/`Int`; 32-bit wrap-around of the
  C++ `uint32_t` fields is written explicitly as `% 4294967296`.
* Byte buffers are `List Nat`, each element one byte value (`< 256` whenever
  it was produced by one of the encoders below); all multi-byte values are
  little-endian, as the containers require.
* C++ `double` columns are only ever moved with `memcpy`, never computed
  with, so a double is modelled by its 64-bit pattern (a `Nat`); byte-level
  identity of patterns coincides with value identity.
* `std::map` columns are modelled as association lists in key-enumeration
  order; keys are distinct in the source maps.
* Floating point `geometricError` arithmetic only halves values, which is
  modelled exactly over `ℚ`.
-/

namespace CDBTo3DTiles

/-- Modelled from the spec: `roundUp` (declared in the repository outside
`src/`) pads a byte count `n` up to the next multiple of `m`
("padded to the next multiple of 8 bytes"). -/
def roundUp (n m : Nat) : Nat := (n + m - 1) / m * m

/-- Little-endian byte image of a 32-bit unsigned value. -/
def enc32 (u : Nat) : List Nat :=
  [u % 256, u / 256 % 256, u / 65536 % 256, u / 16777216 % 256]

/-- Little-endian byte image of a 64-bit pattern (used for `double` columns). -/
def enc64 (u : Nat) : List Nat :=
  [u % 256, u / 256 % 256, u / 65536 % 256, u / 16777216 % 256,
   u / 4294967296 % 256, u / 1099511627776 % 256,
   u / 281474976710656 % 256, u / 72057594037927936 % 256]

/-- Byte image of a 32-bit signed integer (two's complement, little-endian),
as `memcpy` of a C++ `int` produces on a little-endian machine. -/
def encInt32 (v : Int) : List Nat := enc32 ((v % 4294967296).toNat)

/-- Reassemble a 32-bit unsigned value from (at least) four bytes. -/
def dec32 : List Nat → Nat
  | b0 :: b1 :: b2 :: b3 :: _ => b0 + 256 * b1 + 65536 * b2 + 16777216 * b3
  | _ => 0

/-- Reassemble a 64-bit pattern from (at least) eight bytes. -/
def dec64 : List Nat → Nat
  | b0 :: b1 :: b2 :: b3 :: b4 :: b5 :: b6 :: b7 :: _ =>
      b0 + 256 * b1 + 65536 * b2 + 16777216 * b3 + 4294967296 * b4 +
      1099511627776 * b5 + 281474976710656 * b6 + 72057594037927936 * b7
  | _ => 0

/-- Reassemble a 32-bit signed integer from four bytes. -/
def decInt32 (bs : List Nat) : Int :=
  let u := dec32 bs
  if u < 2147483648 then (u : Int) else (u : Int) - 4294967296

/-- Read the 4-byte signed integer stored at byte offset `off` of a buffer. -/
def readInt32 (buf : List Nat) (off : Nat) : Int := decInt32 ((buf.drop off).take 4)

/-- Read the 8-byte float pattern stored at byte offset `off` of a buffer. -/
def readFloat64 (buf : List Nat) (off : Nat) : Nat := dec64 ((buf.drop off).take 8)

/-- Read the 4-byte unsigned integer stored at byte offset `off` of a buffer. -/
def readUint32 (buf : List Nat) (off : Nat) : Nat := dec32 ((buf.drop off).take 4)

/-- The columnar per-instance attribute collection (`CDBInstancesAttributes`,
declared outside `src/`; shape as described by the spec's data model):
one identifier (`CNAM`) string per instance, plus named integer, double and
string columns.  Doubles are stored as 64-bit patterns (see the header
comment). -/
structure CDBInstancesAttributes where
  instancesCount : Nat
  CNAMs : List String
  integerAttribs : List (String × List Int)
  doubleAttribs : List (String × List Nat)
  stringAttribs : List (String × List String)

/-- Invariant stated by the spec: every column's length equals the table's
instance count. -/
def wellFormed (t : CDBInstancesAttributes) : Prop :=
  t.CNAMs.length = t.instancesCount ∧
  (∀ p ∈ t.integerAttribs, p.2.length = t.instancesCount) ∧
  (∀ p ∈ t.doubleAttribs, p.2.length = t.instancesCount) ∧
  (∀ p ∈ t.stringAttribs, p.2.length = t.instancesCount)

/-- One numeric entry of the batch-table JSON descriptor
(`{"byteOffset": .., "type": "SCALAR", "componentType": ..}`). -/
structure BinDescEntry where
  name : String
  byteOffset : Nat
  typeStr : String
  componentType : String

/-- Content of the batch-table JSON object: the `CNAM` string array, one
string array per string attribute, and one numeric descriptor entry per
integer / double attribute. -/
structure BatchTableDesc where
  cnam : List String
  stringCols : List (String × List String)
  intEntries : List BinDescEntry
  doubleEntries : List BinDescEntry

/-- The integer-attribute loop (TileFormatIO.cpp:185-194 and 370-378): for
each column, record the running byte offset in the descriptor, then append
every value as 4 little-endian bytes. -/
def packIntColumns : List (String × List Int) → Nat → List BinDescEntry × List Nat
  | [], _ => ([], [])
  | (name, vals) :: rest, off =>
      let bytes := vals.flatMap encInt32
      let tail := packIntColumns rest (off + bytes.length)
      (⟨name, off, "SCALAR", "INT"⟩ :: tail.1, bytes ++ tail.2)

/-- The double-attribute loop (TileFormatIO.cpp:197-206 and 381-389): for
each column, record the running byte offset, then append every value as its
8 bytes. -/
def packDoubleColumns : List (String × List Nat) → Nat → List BinDescEntry × List Nat
  | [], _ => ([], [])
  | (name, vals) :: rest, off =>
      let bytes := vals.flatMap enc64
      let tail := packDoubleColumns rest (off + bytes.length)
      (⟨name, off, "SCALAR", "DOUBLE"⟩ :: tail.1, bytes ++ tail.2)

/-- Selection of column values at an explicit index list
(`for (auto idx : attribIndices) ... pair.second[idx]`). -/
def selectVals (vals : List α) (dflt : α) (sel : List Nat) : List α :=
  sel.map fun i => vals.getD i dflt

/-- Shared batch-table construction: integer columns are packed from offset
0; the running offset is then rounded up to the next multiple of 8
(`batchTableOffset = roundUp(batchTableOffset, 8)`, the gap left as the
zero bytes of the pre-allocated buffer); double columns follow.  The
identifier column and the string columns go only into the JSON descriptor. -/
def batchTableFromCols (cnams : List String) (strCols : List (String × List String))
    (intCols : List (String × List Int)) (dblCols : List (String × List Nat)) :
    BatchTableDesc × List Nat :=
  let intPack := packIntColumns intCols 0
  let off1 := roundUp intPack.2.length 8
  let dblPack := packDoubleColumns dblCols off1
  (⟨cnams, strCols, intPack.1, dblPack.1⟩,
   intPack.2 ++ List.replicate (off1 - intPack.2.length) 0 ++ dblPack.2)

/-- Batch table built inside `writeToI3DM` (TileFormatIO.cpp:159-206): all
columns are taken at the selected indices, in selection order. -/
def i3dmBatchTable (t : CDBInstancesAttributes) (sel : List Nat) :
    BatchTableDesc × List Nat :=
  batchTableFromCols (selectVals t.CNAMs "" sel)
    (t.stringAttribs.map fun p => (p.1, selectVals p.2 "" sel))
    (t.integerAttribs.map fun p => (p.1, selectVals p.2 0 sel))
    (t.doubleAttribs.map fun p => (p.1, selectVals p.2 0 sel))

/-- Result of `createBatchTable` (TileFormatIO.cpp:344-394): the JSON string
(`none` when the out-parameter is left untouched, i.e. empty), its padded
length, and the binary buffer.  `jsonDump` abstracts the length of the
`nlohmann` serialization of the descriptor, which is then padded to a
multiple of 8 with spaces (line 392). -/
structure BatchTableResult where
  jsonDesc : Option BatchTableDesc
  jsonLen : Nat
  buffer : List Nat

/-- Model of `createBatchTable` (TileFormatIO.cpp:344-394).  With a null table the
function returns immediately and both out-parameters stay empty.  With a
table, the whole columns (no selection) are packed; under the spec's
column-length invariant the bytes written fill the pre-allocated
`roundUp(ints,8) + doubles` buffer exactly, which is the list built here. -/
def createBatchTable (jsonDump : Nat) (t? : Option CDBInstancesAttributes) :
    BatchTableResult :=
  match t? with
  | none => ⟨none, 0, []⟩
  | some t =>
      let p := batchTableFromCols t.CNAMs t.stringAttribs t.integerAttribs t.doubleAttribs
      ⟨some p.1, roundUp jsonDump 8, p.2⟩

/-- Section lengths and header fields produced by `writeToI3DM`
(TileFormatIO.cpp:96-246).  `I3dmHeader` (declared outside `src/`) is
modelled from the spec's field list: 4-byte magic plus seven 4-byte fields,
32 bytes in total. -/
structure I3dmOut where
  featureJsonLen : Nat
  featureBinLen : Nat
  batchDesc : BatchTableDesc
  batchJsonLen : Nat
  batchBinLen : Nat
  uriLen : Nat
  byteLength : Nat

/-- Model of `writeToI3DM` (TileFormatIO.cpp:96-246), abstracted over the lengths the
embedding cannot compute: `fjDump` and `bjDump` are the sizes of the
`nlohmann` dumps of the feature-table and batch-table JSON, `uriDump` the
size of the glTF URI string.  The feature-table JSON is padded so that
header + JSON is a multiple of 8 (lines 210-211), the batch-table JSON and
the URI are padded to multiples of 8 on their own (lines 213-216), the
feature-table binary is allocated at `roundUp(4 * 12 * n, 8)` (lines
130-132), and `byteLength` is the `uint32_t` sum of the header size and all
section sizes (lines 224-229). -/
def writeToI3DM (fjDump bjDump uriDump : Nat) (t : CDBInstancesAttributes)
    (sel : List Nat) : I3dmOut :=
  let n := sel.length
  let featureBinLen := roundUp (n * 12 + n * 12 + n * 12 + n * 12) 8
  let p := i3dmBatchTable t sel
  let headerToRoundUp := 32 + fjDump
  let fjLen := fjDump + (roundUp headerToRoundUp 8 - headerToRoundUp)
  let bjLen := bjDump + (roundUp bjDump 8 - bjDump)
  let uLen := uriDump + (roundUp uriDump 8 - uriDump)
  { featureJsonLen := fjLen
    featureBinLen := featureBinLen
    batchDesc := p.1
    batchJsonLen := bjLen
    batchBinLen := p.2.length
    uriLen := uLen
    byteLength := (32 + fjLen + featureBinLen + bjLen + p.2.length + uLen) % 4294967296 }

/-- Feature-table JSON string of `writeToB3DM` (TileFormatIO.cpp:262-266):
a one-key object holding `BATCH_LENGTH`, the table's instance count, or 0
when no table is supplied. -/
def b3dmFeatureTableStr (t? : Option CDBInstancesAttributes) : String :=
  let n : Nat := match t? with
    | none => 0
    | some t => t.instancesCount
  "\x7b\"BATCH_LENGTH\":" ++ toString n ++ "\x7d"

/-- Section lengths and header fields produced by `writeToB3DM`
(TileFormatIO.cpp:248-299).  `B3dmHeader` (declared outside `src/`) is
modelled from the spec's field list: 4-byte magic plus six 4-byte fields,
28 bytes in total. -/
structure B3dmOut where
  featureJson : String
  featureJsonLen : Nat
  featureBinLen : Nat
  batchJsonLen : Nat
  batchBinLen : Nat
  payloadLen : Nat
  byteLength : Nat

/-- Model of `writeToB3DM` (TileFormatIO.cpp:248-299).  `glbDump` abstracts the size
of the embedded glTF binary stream, padded with zero bytes to a multiple of
8 (line 258); `bjDump` abstracts the batch-table JSON dump length (only
used when a table is present).  The feature-table JSON is padded so that
header + JSON is a multiple of 8 (lines 267-268); the feature-table binary
length field is 0 (line 288). -/
def writeToB3DM (glbDump bjDump : Nat) (t? : Option CDBInstancesAttributes) : B3dmOut :=
  let glbLen := roundUp glbDump 8
  let ft := b3dmFeatureTableStr t?
  let headerToRoundUp := 28 + ft.length
  let fjLen := ft.length + (roundUp headerToRoundUp 8 - headerToRoundUp)
  let bt := createBatchTable bjDump t?
  { featureJson := ft
    featureJsonLen := fjLen
    featureBinLen := 0
    batchJsonLen := bt.jsonLen
    batchBinLen := bt.buffer.length
    payloadLen := glbLen
    byteLength := (28 + fjLen + bt.jsonLen + bt.buffer.length + glbLen) % 4294967296 }

/-- Byte image of `CmptHeader` (declared outside `src/`; modelled from the
spec's field list): magic `"cmpt"`, version 1, total byte length, tile
count — 16 bytes. -/
def cmptHeaderBytes (byteLength titleLength : Nat) : List Nat :=
  [99, 109, 112, 116] ++ enc32 1 ++ enc32 byteLength ++ enc32 titleLength

/-- Model of `writeToCMPT` (TileFormatIO.cpp:322-342).  The callback is modelled as
returning the bytes it appends to the stream together with its returned
`uint32_t` length.  The header is first written with `byteLength =
sizeof(header) = 16`, each callback's return value is accumulated into the
`uint32_t` field, and the header is rewritten in place at offset 0; the net
file is the final header followed by the sub-tile bytes. -/
def writeToCMPT (numOfTiles : Nat) (writeToTileFormat : Nat → List Nat × Nat) :
    List Nat :=
  let pieces := (List.range numOfTiles).map writeToTileFormat
  let finalByteLength := (16 + (pieces.map fun p => p.2 % 4294967296).sum) % 4294967296
  cmptHeaderBytes finalByteLength (numOfTiles % 4294967296) ++
    (pieces.map Prod.fst).flatten

/-- Modelled from the spec: `Core::BoundingRegion` (geodetic math library,
out of scope of `src/`) — a geodetic rectangle (west/south/east/north) plus
minimum and maximum height. -/
structure BoundingRegion where
  west : ℚ
  south : ℚ
  east : ℚ
  north : ℚ
  minHeight : ℚ
  maxHeight : ℚ
deriving DecidableEq

/-- Modelled from the spec: `BoundingRegion::computeUnion` produces the
smallest region enclosing both inputs (west = min of the wests, etc.). -/
def computeUnion (a b : BoundingRegion) : BoundingRegion :=
  ⟨min a.west b.west, min a.south b.south, max a.east b.east, max a.north b.north,
   min a.minHeight b.minHeight, max a.maxHeight b.maxHeight⟩

/-- The six-number JSON `region` array, in the literal order used at
TileFormatIO.cpp:48-56, 64-72 and 594-602: west, south, east, north,
minimum height, maximum height. -/
def regionSix (r : BoundingRegion) : List ℚ :=
  [r.west, r.south, r.east, r.north, r.minHeight, r.maxHeight]

/-- Constant `MAX_GEOMETRIC_ERROR` (TileFormatIO.cpp:8). -/
def maxGeometricError : ℚ := 300000

/-- The `regions[i]` accesses of the child loop (TileFormatIO.cpp:40-60),
one per path index, performed in order; `none` when some access is out of
range. -/
def readRegions (regions : List BoundingRegion) : Nat → Option (List BoundingRegion)
  | 0 => some []
  | n + 1 => do
      let init ← readRegions regions n
      let r ← regions[n]?
      some (init ++ [r])

/-- The wrapper tileset JSON built by `combineTilesetJson`: root refinement,
root geometric error, root content (never set by the source), the children
(content URI paired with the six-number region of that input), the root
region, and the extension declarations. -/
structure CombinedTileset where
  rootRefine : String
  rootGeometricError : ℚ
  rootContent : Option String
  childrenGeometricError : ℚ
  children : List (String × List ℚ)
  rootRegion : List ℚ
  extensionsUsed : List String
  extensionsRequired : List String

/-- Model of `combineTilesetJson` (TileFormatIO.cpp:21-75).  `regions.front()` is
read unconditionally (line 39) and `regions[i]` for every path index
(line 42); both are modelled as fallible accesses, so the result is `none`
exactly when the C++ indexing would be out of range.  The root region folds
`computeUnion` over the accessed regions starting from `regions.front()`. -/
def combineTilesetJson (tilesetJsonPaths : List String)
    (regions : List BoundingRegion) (use3dTilesNext : Bool) :
    Option CombinedTileset := do
  let first ← regions.head?
  let childRegions ← readRegions regions tilesetJsonPaths.length
  let rootRegion := childRegions.foldl computeUnion first
  some
    { rootRefine := "ADD"
      rootGeometricError := maxGeometricError
      rootContent := none
      childrenGeometricError := maxGeometricError
      children := tilesetJsonPaths.zip (childRegions.map regionSix)
      rootRegion := regionSix rootRegion
      extensionsUsed := if use3dTilesNext then ["3DTILES_content_gltf"] else []
      extensionsRequired := if use3dTilesNext then ["3DTILES_content_gltf"] else [] }

/-- Tile node `CDBTile` as consumed by the serializer (class declared outside `src/`;
shape from the spec's data model): a bounding region, an optional custom
content URI, and a list of child slots where a slot may be null
(`child == nullptr`, TileFormatIO.cpp:618). -/
inductive CDBTile where
  | mk : BoundingRegion → Option String → List (Option CDBTile) → CDBTile

/-- Bounding region of a tile. -/
def CDBTile.boundRegion : CDBTile → BoundingRegion
  | .mk r _ _ => r

/-- Custom content URI of a tile. -/
def CDBTile.customContentURI : CDBTile → Option String
  | .mk _ u _ => u

/-- Child slots of a tile. -/
def CDBTile.children : CDBTile → List (Option CDBTile)
  | .mk _ _ c => c

/-- The JSON object emitted for one tile: `boundingVolume.region`, optional
`content.uri`, `geometricError`, and the `children` array (the empty list
models an absent `children` key). -/
inductive TileJson where
  | mk : List ℚ → Option String → ℚ → List TileJson → TileJson

/-- Region array of an emitted tile object. -/
def TileJson.region : TileJson → List ℚ
  | .mk r _ _ _ => r

/-- Content URI of an emitted tile object. -/
def TileJson.content : TileJson → Option String
  | .mk _ c _ _ => c

/-- Geometric error of an emitted tile object. -/
def TileJson.geometricError : TileJson → ℚ
  | .mk _ _ e _ => e

/-- Children array of an emitted tile object. -/
def TileJson.childJsons : TileJson → List TileJson
  | .mk _ _ _ c => c

mutual

/-- Model of `convertTilesetToJson` (TileFormatIO.cpp:590-627): emit the region and
the optional content URI; if the child-slot list is empty emit geometric
error 0, otherwise emit the caller's error and recurse into every non-null
child slot with half that error. -/
def convertTilesetToJson (tile : CDBTile) (geometricError : ℚ) : TileJson :=
  match tile with
  | .mk region uri children =>
      if children.isEmpty then
        .mk (regionSix region) uri 0 []
      else
        .mk (regionSix region) uri geometricError
          (convertChildren children (geometricError / 2))

/-- The child loop of `convertTilesetToJson` (TileFormatIO.cpp:617-625):
null slots are skipped, the others are serialized in order. -/
def convertChildren (slots : List (Option CDBTile)) (childError : ℚ) : List TileJson :=
  match slots with
  | [] => []
  | none :: rest => convertChildren rest childError
  | some c :: rest =>
      convertTilesetToJson c childError :: convertChildren rest childError

end

/-- Node kinds of `nlohmann::json` reachable in `ParseJsonAsValue`
(TileFormatIO.cpp:629-675).  `number_integer` and `number_unsigned` are the
64-bit kinds; `number_float` is modelled as an exact value. -/
inductive NJson where
  | null : NJson
  | discarded : NJson
  | obj : List (String × NJson) → NJson
  | arr : List NJson → NJson
  | str : String → NJson
  | boolean : Bool → NJson
  | intNum : Int → NJson
  | uintNum : Nat → NJson
  | floatNum : ℚ → NJson

/-- Tagged value type `tinygltf::Value` of the scene graph.  `nullv` is the
default-constructed `NULL_TYPE` value. -/
inductive GValue where
  | nullv : GValue
  | objectVal : List (String × GValue) → GValue
  | arrayVal : List GValue → GValue
  | stringVal : String → GValue
  | boolVal : Bool → GValue
  | intVal : Int → GValue
  | realVal : ℚ → GValue

/-- The `Type() != NULL_TYPE` test (TileFormatIO.cpp:637, 648, 674). -/
def GValue.isNull : GValue → Bool
  | .nullv => true
  | _ => false

/-- Truncation performed by `static_cast<int>` on a 64-bit value: wrap into the 32-bit signed range. -/
def wrap32 (n : Int) : Int :=
  let u := n % 4294967296
  if u < 2147483648 then u else u - 4294967296

mutual

/-- Model of `ParseJsonAsValue` (TileFormatIO.cpp:629-675), returning the translated
value (the C++ bool result is `!val.isNull`).  Objects and arrays keep only
entries whose translation is not null and collapse to the null value when
nothing remains; strings, booleans and floats map to their tags; integer
kinds go through `static_cast<int>(o.get<int64_t>())` (line 661), i.e. a
64-bit read followed by 32-bit truncation; `null`/`discarded` stay null. -/
def ParseJsonAsValue : NJson → GValue
  | .obj entries =>
      let es := parseObjEntries entries
      if es.isEmpty then .nullv else .objectVal es
  | .arr items =>
      let xs := parseArrItems items
      if xs.isEmpty then .nullv else .arrayVal xs
  | .str s => .stringVal s
  | .boolean b => .boolVal b
  | .intNum n => .intVal (wrap32 n)
  | .uintNum n => .intVal (wrap32 ((n : Int) % 18446744073709551616))
  | .floatNum q => .realVal q
  | .null => .nullv
  | .discarded => .nullv

/-- The object loop of `ParseJsonAsValue` (TileFormatIO.cpp:633-639). -/
def parseObjEntries : List (String × NJson) → List (String × GValue)
  | [] => []
  | (k, v) :: rest =>
      let entry := ParseJsonAsValue v
      if entry.isNull then parseObjEntries rest
      else (k, entry) :: parseObjEntries rest

/-- The array loop of `ParseJsonAsValue` (TileFormatIO.cpp:642-650). -/
def parseArrItems : List NJson → List GValue
  | [] => []
  | v :: rest =>
      let entry := ParseJsonAsValue v
      if entry.isNull then parseArrItems rest
      else entry :: parseArrItems rest

end

example : roundUp 0 8 = 0 := by decide
example : roundUp 46 8 = 48 := by decide
example : decInt32 (encInt32 (-5)) = -5 := by decide
example : dec64 (enc64 12345678901234567890) = 12345678901234567890 := by decide
example :
    (i3dmBatchTable ⟨2, ["a", "b"], [("HGT", [7, -1])], [], []⟩ [1, 0]).2 =
      [255, 255, 255, 255, 7, 0, 0, 0] := by decide

end CDBTo3DTiles

namespace CDBTo3DTiles

theorem roundUp_eight_dvd (n : Nat) : 8 ∣ roundUp n 8 := by
  unfold roundUp; omega

theorem le_roundUp_eight (n : Nat) : n ≤ roundUp n 8 := by
  unfold roundUp; omega

theorem dec32_enc32 (u : Nat) : dec32 (enc32 u) = u % 4294967296 := by
  simp only [enc32, dec32]; omega

theorem decInt32_encInt32 (v : Int) (h1 : -2147483648 ≤ v) (h2 : v < 2147483648) :
    decInt32 (encInt32 v) = v := by
  simp only [decInt32, encInt32, dec32_enc32]
  split <;> omega

theorem dec64_enc64 (u : Nat) (h : u < 18446744073709551616) : dec64 (enc64 u) = u := by
  simp only [enc64, dec64]; omega

theorem encInt32_length (v : Int) : (encInt32 v).length = 4 := rfl

theorem enc64_length (u : Nat) : (enc64 u).length = 8 := rfl

theorem flatMap_encInt32_length (vals : List Int) :
    (vals.flatMap encInt32).length = 4 * vals.length := by
  induction vals with
  | nil => rfl
  | cons v vs ih => simp [List.flatMap_cons, encInt32, enc32, ih]; omega

theorem flatMap_enc64_length (vals : List Nat) :
    (vals.flatMap enc64).length = 8 * vals.length := by
  induction vals with
  | nil => rfl
  | cons v vs ih => simp [List.flatMap_cons, enc64, ih]; omega

theorem readInt32_flatMap (vals : List Int) (pre post : List Nat) (j : Nat)
    (hj : j < vals.length)
    (hrange : ∀ v ∈ vals, -2147483648 ≤ v ∧ v < 2147483648) :
    readInt32 (pre ++ vals.flatMap encInt32 ++ post) (pre.length + 4 * j)
      = vals.getD j 0 := by
  induction vals generalizing j pre with
  | nil => simp at hj
  | cons v vs ih =>
    cases j with
    | zero =>
      obtain ⟨hv1, hv2⟩ := hrange v (List.mem_cons_self _ _)
      rw [show pre ++ (v :: vs).flatMap encInt32 ++ post
            = pre ++ (encInt32 v ++ (vs.flatMap encInt32 ++ post)) by
          simp [List.flatMap_cons]]
      show decInt32 _ = _
      rw [Nat.mul_zero, Nat.add_zero, List.drop_left,
        List.take_left' (encInt32_length v)]
      simpa using decInt32_encInt32 v hv1 hv2
    | succ k =>
      have hassoc : pre ++ (v :: vs).flatMap encInt32 ++ post
          = (pre ++ encInt32 v) ++ vs.flatMap encInt32 ++ post := by
        simp [List.flatMap_cons]
      have harith : pre.length + 4 * (k + 1) = (pre ++ encInt32 v).length + 4 * k := by
        simp [encInt32, enc32]; omega
      rw [hassoc, harith, List.getD_cons_succ]
      exact ih (pre ++ encInt32 v) k (by simpa using hj)
        (fun w hw => hrange w (List.mem_cons_of_mem _ hw))

theorem readFloat64_flatMap (vals : List Nat) (pre post : List Nat) (j : Nat)
    (hj : j < vals.length)
    (hrange : ∀ v ∈ vals, v < 18446744073709551616) :
    readFloat64 (pre ++ vals.flatMap enc64 ++ post) (pre.length + 8 * j)
      = vals.getD j 0 := by
  induction vals generalizing j pre with
  | nil => simp at hj
  | cons v vs ih =>
    cases j with
    | zero =>
      have hv := hrange v (List.mem_cons_self _ _)
      rw [show pre ++ (v :: vs).flatMap enc64 ++ post
            = pre ++ (enc64 v ++ (vs.flatMap enc64 ++ post)) by
          simp [List.flatMap_cons]]
      show dec64 _ = _
      rw [Nat.mul_zero, Nat.add_zero, List.drop_left,
        List.take_left' (enc64_length v)]
      simpa using dec64_enc64 v hv
    | succ k =>
      have hassoc : pre ++ (v :: vs).flatMap enc64 ++ post
          = (pre ++ enc64 v) ++ vs.flatMap enc64 ++ post := by
        simp [List.flatMap_cons]
      have harith : pre.length + 8 * (k + 1) = (pre ++ enc64 v).length + 8 * k := by
        simp [enc64]; omega
      rw [hassoc, harith, List.getD_cons_succ]
      exact ih (pre ++ enc64 v) k (by simpa using hj)
        (fun w hw => hrange w (List.mem_cons_of_mem _ hw))

end CDBTo3DTiles

namespace CDBTo3DTiles

theorem packIntColumns_fst_length (cols : List (String × List Int)) (off : Nat) :
    (packIntColumns cols off).1.length = cols.length := by
  induction cols generalizing off with
  | nil => rfl
  | cons c rest ih =>
    obtain ⟨name, vals⟩ := c
    simp [packIntColumns, ih]

theorem packDoubleColumns_fst_length (cols : List (String × List Nat)) (off : Nat) :
    (packDoubleColumns cols off).1.length = cols.length := by
  induction cols generalizing off with
  | nil => rfl
  | cons c rest ih =>
    obtain ⟨name, vals⟩ := c
    simp [packDoubleColumns, ih]

theorem packIntColumns_snd_length (cols : List (String × List Int)) (off n : Nat)
    (hn : ∀ p ∈ cols, p.2.length = n) :
    (packIntColumns cols off).2.length = 4 * n * cols.length := by
  induction cols generalizing off with
  | nil => simp [packIntColumns]
  | cons c rest ih =>
    obtain ⟨name, vals⟩ := c
    have hv : vals.length = n := hn _ (List.mem_cons_self _ _)
    have hlen4 : (vals.flatMap encInt32).length = 4 * n := by
      rw [flatMap_encInt32_length, hv]
    simp only [packIntColumns, List.length_append]
    rw [hlen4, ih _ (fun p hp => hn p (List.mem_cons_of_mem _ hp)), List.length_cons]
    ring

theorem packDoubleColumns_snd_length (cols : List (String × List Nat)) (off n : Nat)
    (hn : ∀ p ∈ cols, p.2.length = n) :
    (packDoubleColumns cols off).2.length = 8 * n * cols.length := by
  induction cols generalizing off with
  | nil => simp [packDoubleColumns]
  | cons c rest ih =>
    obtain ⟨name, vals⟩ := c
    have hv : vals.length = n := hn _ (List.mem_cons_self _ _)
    have hlen8 : (vals.flatMap enc64).length = 8 * n := by
      rw [flatMap_enc64_length, hv]
    simp only [packDoubleColumns, List.length_append]
    rw [hlen8, ih _ (fun p hp => hn p (List.mem_cons_of_mem _ hp)), List.length_cons]
    ring

theorem packIntColumns_entry (cols : List (String × List Int)) (off n a : Nat)
    (hn : ∀ p ∈ cols, p.2.length = n) (ha : a < cols.length) :
    (packIntColumns cols off).1.getD a ⟨"", 0, "", ""⟩
      = ⟨(cols.getD a ("", [])).1, off + 4 * n * a, "SCALAR", "INT"⟩ := by
  induction cols generalizing off a with
  | nil => simp at ha
  | cons c rest ih =>
    obtain ⟨name, vals⟩ := c
    cases a with
    | zero => simp [packIntColumns]
    | succ k =>
      have hv : vals.length = n := hn _ (List.mem_cons_self _ _)
      have hlen4 : (vals.flatMap encInt32).length = 4 * n := by
        rw [flatMap_encInt32_length, hv]
      have harith : off + 4 * n * (k + 1) = off + 4 * n + 4 * n * k := by ring
      show (packIntColumns rest (off + (vals.flatMap encInt32).length)).1.getD k _ = _
      rw [hlen4, List.getD_cons_succ, harith]
      exact ih (off + 4 * n) k (fun p hp => hn p (List.mem_cons_of_mem _ hp))
        (by simpa using ha)

theorem packDoubleColumns_entry (cols : List (String × List Nat)) (off n a : Nat)
    (hn : ∀ p ∈ cols, p.2.length = n) (ha : a < cols.length) :
    (packDoubleColumns cols off).1.getD a ⟨"", 0, "", ""⟩
      = ⟨(cols.getD a ("", [])).1, off + 8 * n * a, "SCALAR", "DOUBLE"⟩ := by
  induction cols generalizing off a with
  | nil => simp at ha
  | cons c rest ih =>
    obtain ⟨name, vals⟩ := c
    cases a with
    | zero => simp [packDoubleColumns]
    | succ k =>
      have hv : vals.length = n := hn _ (List.mem_cons_self _ _)
      have hlen8 : (vals.flatMap enc64).length = 8 * n := by
        rw [flatMap_enc64_length, hv]
      have harith : off + 8 * n * (k + 1) = off + 8 * n + 8 * n * k := by ring
      show (packDoubleColumns rest (off + (vals.flatMap enc64).length)).1.getD k _ = _
      rw [hlen8, List.getD_cons_succ, harith]
      exact ih (off + 8 * n) k (fun p hp => hn p (List.mem_cons_of_mem _ hp))
        (by simpa using ha)

theorem packIntColumns_read (cols : List (String × List Int)) (n : Nat)
    (pre post : List Nat) (off a j : Nat)
    (hn : ∀ p ∈ cols, p.2.length = n)
    (hrange : ∀ p ∈ cols, ∀ v ∈ p.2, -2147483648 ≤ v ∧ v < 2147483648)
    (hpre : pre.length = off) (ha : a < cols.length) (hj : j < n) :
    readInt32 (pre ++ (packIntColumns cols off).2 ++ post) (off + 4 * n * a + 4 * j)
      = (cols.getD a ("", [])).2.getD j 0 := by
  induction cols generalizing pre off a with
  | nil => simp at ha
  | cons c rest ih =>
    obtain ⟨name, vals⟩ := c
    have hv : vals.length = n := hn _ (List.mem_cons_self _ _)
    have hlen4 : (vals.flatMap encInt32).length = 4 * n := by
      rw [flatMap_encInt32_length, hv]
    cases a with
    | zero =>
      have hb : pre ++ (packIntColumns ((name, vals) :: rest) off).2 ++ post
          = pre ++ vals.flatMap encInt32
            ++ ((packIntColumns rest (off + (vals.flatMap encInt32).length)).2 ++ post) := by
        simp [packIntColumns]
      have hread := readInt32_flatMap vals pre
        ((packIntColumns rest (off + (vals.flatMap encInt32).length)).2 ++ post) j
        (hv ▸ hj) (hrange _ (List.mem_cons_self _ _))
      rw [hb]
      rw [hpre] at hread
      simpa using hread
    | succ k =>
      have hb : pre ++ (packIntColumns ((name, vals) :: rest) off).2 ++ post
          = (pre ++ vals.flatMap encInt32)
            ++ (packIntColumns rest (off + (vals.flatMap encInt32).length)).2 ++ post := by
        simp [packIntColumns]
      have harith : off + 4 * n * (k + 1) + 4 * j = (off + 4 * n) + 4 * n * k + 4 * j := by
        ring
      rw [hb, hlen4, harith, List.getD_cons_succ]
      exact ih (pre ++ vals.flatMap encInt32) (off + 4 * n) k
        (fun p hp => hn p (List.mem_cons_of_mem _ hp))
        (fun p hp => hrange p (List.mem_cons_of_mem _ hp))
        (by simp [hlen4, hpre]) (by simpa using ha)

theorem packDoubleColumns_read (cols : List (String × List Nat)) (n : Nat)
    (pre post : List Nat) (off a j : Nat)
    (hn : ∀ p ∈ cols, p.2.length = n)
    (hrange : ∀ p ∈ cols, ∀ v ∈ p.2, v < 18446744073709551616)
    (hpre : pre.length = off) (ha : a < cols.length) (hj : j < n) :
    readFloat64 (pre ++ (packDoubleColumns cols off).2 ++ post) (off + 8 * n * a + 8 * j)
      = (cols.getD a ("", [])).2.getD j 0 := by
  induction cols generalizing pre off a with
  | nil => simp at ha
  | cons c rest ih =>
    obtain ⟨name, vals⟩ := c
    have hv : vals.length = n := hn _ (List.mem_cons_self _ _)
    have hlen8 : (vals.flatMap enc64).length = 8 * n := by
      rw [flatMap_enc64_length, hv]
    cases a with
    | zero =>
      have hb : pre ++ (packDoubleColumns ((name, vals) :: rest) off).2 ++ post
          = pre ++ vals.flatMap enc64
            ++ ((packDoubleColumns rest (off + (vals.flatMap enc64).length)).2 ++ post) := by
        simp [packDoubleColumns]
      have hread := readFloat64_flatMap vals pre
        ((packDoubleColumns rest (off + (vals.flatMap enc64).length)).2 ++ post) j
        (hv ▸ hj) (hrange _ (List.mem_cons_self _ _))
      rw [hb]
      rw [hpre] at hread
      simpa using hread
    | succ k =>
      have hb : pre ++ (packDoubleColumns ((name, vals) :: rest) off).2 ++ post
          = (pre ++ vals.flatMap enc64)
            ++ (packDoubleColumns rest (off + (vals.flatMap enc64).length)).2 ++ post := by
        simp [packDoubleColumns]
      have harith : off + 8 * n * (k + 1) + 8 * j = (off + 8 * n) + 8 * n * k + 8 * j := by
        ring
      rw [hb, hlen8, harith, List.getD_cons_succ]
      exact ih (pre ++ vals.flatMap enc64) (off + 8 * n) k
        (fun p hp => hn p (List.mem_cons_of_mem _ hp))
        (fun p hp => hrange p (List.mem_cons_of_mem _ hp))
        (by simp [hlen8, hpre]) (by simpa using ha)

end CDBTo3DTiles

namespace CDBTo3DTiles

theorem getD_map_lt {α β : Type} {f : α → β} (l : List α) (a : Nat)
    (h : a < l.length) (d : β) (e : α) : (l.map f).getD a d = f (l.getD a e) := by
  induction l generalizing a with
  | nil => simp at h
  | cons x xs ih =>
    cases a with
    | zero => simp
    | succ k => simpa using ih k (by simpa using h)

theorem selectVals_length {α : Type} (vals : List α) (d : α) (sel : List Nat) :
    (selectVals vals d sel).length = sel.length := by
  simp [selectVals]

theorem selectVals_getD {α : Type} (vals : List α) (d : α) (sel : List Nat) (j : Nat)
    (hj : j < sel.length) :
    (selectVals vals d sel).getD j d = vals.getD (sel.getD j 0) d := by
  induction sel generalizing j with
  | nil => simp at hj
  | cons i rest ih =>
    cases j with
    | zero => simp [selectVals]
    | succ k =>
      simp only [selectVals, List.map_cons, List.getD_cons_succ]
      exact ih k (by simpa using hj)

theorem mem_selectVals {α : Type} (vals : List α) (d : α) (sel : List Nat) (v : α)
    (hv : v ∈ selectVals vals d sel) : v ∈ vals ∨ v = d := by
  simp only [selectVals, List.mem_map] at hv
  obtain ⟨i, _, rfl⟩ := hv
  by_cases h : i < vals.length
  · left
    rw [List.getD_eq_getElem vals d h]
    exact List.getElem_mem h
  · right
    exact List.getD_eq_default vals d (by omega)

theorem batchTableFromCols_intEntry (cnams : List String)
    (strCols : List (String × List String)) (intCols : List (String × List Int))
    (dblCols : List (String × List Nat)) (n a : Nat)
    (hnI : ∀ p ∈ intCols, p.2.length = n) (ha : a < intCols.length) :
    (batchTableFromCols cnams strCols intCols dblCols).1.intEntries.getD a ⟨"", 0, "", ""⟩
      = ⟨(intCols.getD a ("", [])).1, 4 * n * a, "SCALAR", "INT"⟩ := by
  show (packIntColumns intCols 0).1.getD a _ = _
  simpa using packIntColumns_entry intCols 0 n a hnI ha

theorem batchTableFromCols_doubleEntry (cnams : List String)
    (strCols : List (String × List String)) (intCols : List (String × List Int))
    (dblCols : List (String × List Nat)) (n d : Nat)
    (hnI : ∀ p ∈ intCols, p.2.length = n) (hnD : ∀ p ∈ dblCols, p.2.length = n)
    (hd : d < dblCols.length) :
    (batchTableFromCols cnams strCols intCols dblCols).1.doubleEntries.getD d ⟨"", 0, "", ""⟩
      = ⟨(dblCols.getD d ("", [])).1,
         roundUp (4 * n * intCols.length) 8 + 8 * n * d, "SCALAR", "DOUBLE"⟩ := by
  show (packDoubleColumns dblCols (roundUp (packIntColumns intCols 0).2.length 8)).1.getD d _
      = _
  rw [packIntColumns_snd_length intCols 0 n hnI]
  exact packDoubleColumns_entry dblCols _ n d hnD hd

theorem batchTableFromCols_snd_length (cnams : List String)
    (strCols : List (String × List String)) (intCols : List (String × List Int))
    (dblCols : List (String × List Nat)) (n : Nat)
    (hnI : ∀ p ∈ intCols, p.2.length = n) (hnD : ∀ p ∈ dblCols, p.2.length = n) :
    (batchTableFromCols cnams strCols intCols dblCols).2.length
      = roundUp (4 * n * intCols.length) 8 + 8 * n * dblCols.length := by
  show ((packIntColumns intCols 0).2
      ++ List.replicate (roundUp (packIntColumns intCols 0).2.length 8
            - (packIntColumns intCols 0).2.length) 0
      ++ (packDoubleColumns dblCols (roundUp (packIntColumns intCols 0).2.length 8)).2).length
      = _
  have hI := packIntColumns_snd_length intCols 0 n hnI
  simp only [List.length_append, List.length_replicate, hI]
  rw [packDoubleColumns_snd_length dblCols _ n hnD]
  have hle := le_roundUp_eight (4 * n * intCols.length)
  omega

theorem batchTableFromCols_readInt (cnams : List String)
    (strCols : List (String × List String)) (intCols : List (String × List Int))
    (dblCols : List (String × List Nat)) (n a j : Nat)
    (hnI : ∀ p ∈ intCols, p.2.length = n)
    (hrange : ∀ p ∈ intCols, ∀ v ∈ p.2, -2147483648 ≤ v ∧ v < 2147483648)
    (ha : a < intCols.length) (hj : j < n) :
    readInt32 (batchTableFromCols cnams strCols intCols dblCols).2
        (((batchTableFromCols cnams strCols intCols dblCols).1.intEntries.getD a
            ⟨"", 0, "", ""⟩).byteOffset + 4 * j)
      = (intCols.getD a ("", [])).2.getD j 0 := by
  rw [batchTableFromCols_intEntry cnams strCols intCols dblCols n a hnI ha]
  show readInt32 ((packIntColumns intCols 0).2
      ++ List.replicate (roundUp (packIntColumns intCols 0).2.length 8
            - (packIntColumns intCols 0).2.length) 0
      ++ (packDoubleColumns dblCols (roundUp (packIntColumns intCols 0).2.length 8)).2)
      (4 * n * a + 4 * j) = _
  have h := packIntColumns_read intCols n []
    (List.replicate (roundUp (packIntColumns intCols 0).2.length 8
        - (packIntColumns intCols 0).2.length) 0
      ++ (packDoubleColumns dblCols (roundUp (packIntColumns intCols 0).2.length 8)).2)
    0 a j hnI hrange rfl ha hj
  simpa using h

theorem batchTableFromCols_readDouble (cnams : List String)
    (strCols : List (String × List String)) (intCols : List (String × List Int))
    (dblCols : List (String × List Nat)) (n d j : Nat)
    (hnI : ∀ p ∈ intCols, p.2.length = n)
    (hnD : ∀ p ∈ dblCols, p.2.length = n)
    (hrange : ∀ p ∈ dblCols, ∀ v ∈ p.2, v < 18446744073709551616)
    (hd : d < dblCols.length) (hj : j < n) :
    readFloat64 (batchTableFromCols cnams strCols intCols dblCols).2
        (((batchTableFromCols cnams strCols intCols dblCols).1.doubleEntries.getD d
            ⟨"", 0, "", ""⟩).byteOffset + 8 * j)
      = (dblCols.getD d ("", [])).2.getD j 0 := by
  rw [batchTableFromCols_doubleEntry cnams strCols intCols dblCols n d hnI hnD hd]
  have hI := packIntColumns_snd_length intCols 0 n hnI
  show readFloat64 ((packIntColumns intCols 0).2
      ++ List.replicate (roundUp (packIntColumns intCols 0).2.length 8
            - (packIntColumns intCols 0).2.length) 0
      ++ (packDoubleColumns dblCols (roundUp (packIntColumns intCols 0).2.length 8)).2)
      (roundUp (4 * n * intCols.length) 8 + 8 * n * d + 8 * j) = _
  rw [hI]
  have hpre : ((packIntColumns intCols 0).2
      ++ List.replicate (roundUp (4 * n * intCols.length) 8 - 4 * n * intCols.length) 0).length
      = roundUp (4 * n * intCols.length) 8 := by
    have hle := le_roundUp_eight (4 * n * intCols.length)
    simp only [List.length_append, List.length_replicate, hI]
    omega
  have h := packDoubleColumns_read dblCols n
    ((packIntColumns intCols 0).2
      ++ List.replicate (roundUp (4 * n * intCols.length) 8 - 4 * n * intCols.length) 0)
    [] (roundUp (4 * n * intCols.length) 8) d j hnD hrange hpre hd hj
  rw [List.append_nil] at h
  simpa [List.append_assoc] using h

end CDBTo3DTiles

namespace CDBTo3DTiles

theorem selCols_len {α : Type} (cols : List (String × List α)) (d : α) (sel : List Nat) :
    ∀ p ∈ cols.map (fun p => (p.1, selectVals p.2 d sel)), p.2.length = sel.length := by
  intro p hp
  simp only [List.mem_map] at hp
  obtain ⟨q, _, rfl⟩ := hp
  exact selectVals_length q.2 d sel

theorem selCols_int_range (cols : List (String × List Int)) (sel : List Nat)
    (h : ∀ p ∈ cols, ∀ v ∈ p.2, -2147483648 ≤ v ∧ v < 2147483648) :
    ∀ p ∈ cols.map (fun p => (p.1, selectVals p.2 0 sel)), ∀ v ∈ p.2,
      -2147483648 ≤ v ∧ v < 2147483648 := by
  intro p hp v hv
  simp only [List.mem_map] at hp
  obtain ⟨q, hq, rfl⟩ := hp
  rcases mem_selectVals q.2 0 sel v hv with hm | rfl
  · exact h q hq v hm
  · exact ⟨by norm_num, by norm_num⟩

theorem selCols_dbl_range (cols : List (String × List Nat)) (sel : List Nat)
    (h : ∀ p ∈ cols, ∀ v ∈ p.2, v < 18446744073709551616) :
    ∀ p ∈ cols.map (fun p => (p.1, selectVals p.2 0 sel)), ∀ v ∈ p.2,
      v < 18446744073709551616 := by
  intro p hp v hv
  simp only [List.mem_map] at hp
  obtain ⟨q, hq, rfl⟩ := hp
  rcases mem_selectVals q.2 0 sel v hv with hm | rfl
  · exact h q hq v hm
  · norm_num

/-- Claim C2: decoding the packed batch-table binary at the descriptor's declared
byte offsets, with the declared component widths (4-byte signed integers,
8-byte floats), reproduces exactly the selected attribute values in
selection order — both for the selection-based packing of `writeToI3DM`
and for the whole-table packing of `createBatchTable`. -/
theorem batch_table_binary_roundtrip (t : CDBInstancesAttributes) (sel : List Nat)
    (hint : ∀ p ∈ t.integerAttribs, ∀ v ∈ p.2, -2147483648 ≤ v ∧ v < 2147483648)
    (hdbl : ∀ p ∈ t.doubleAttribs, ∀ v ∈ p.2, v < 18446744073709551616)
    (hsel : ∀ i ∈ sel, i < t.instancesCount) (hwf : wellFormed t) :
    (∀ a j : Nat, a < t.integerAttribs.length → j < sel.length →
      readInt32 (i3dmBatchTable t sel).2
          (((i3dmBatchTable t sel).1.intEntries.getD a ⟨"", 0, "", ""⟩).byteOffset + 4 * j)
        = (t.integerAttribs.getD a ("", [])).2.getD (sel.getD j 0) 0) ∧
    (∀ d j : Nat, d < t.doubleAttribs.length → j < sel.length →
      readFloat64 (i3dmBatchTable t sel).2
          (((i3dmBatchTable t sel).1.doubleEntries.getD d ⟨"", 0, "", ""⟩).byteOffset + 8 * j)
        = (t.doubleAttribs.getD d ("", [])).2.getD (sel.getD j 0) 0) ∧
    (∀ bj a j : Nat, a < t.integerAttribs.length → j < t.instancesCount →
      readInt32 (createBatchTable bj (some t)).buffer
          ((((createBatchTable bj (some t)).jsonDesc.getD
              ⟨[], [], [], []⟩).intEntries.getD a ⟨"", 0, "", ""⟩).byteOffset + 4 * j)
        = (t.integerAttribs.getD a ("", [])).2.getD j 0) ∧
    (∀ bj d j : Nat, d < t.doubleAttribs.length → j < t.instancesCount →
      readFloat64 (createBatchTable bj (some t)).buffer
          ((((createBatchTable bj (some t)).jsonDesc.getD
              ⟨[], [], [], []⟩).doubleEntries.getD d ⟨"", 0, "", ""⟩).byteOffset + 8 * j)
        = (t.doubleAttribs.getD d ("", [])).2.getD j 0) := by
  refine ⟨?_, ?_, ?_, ?_⟩
  · intro a j ha hj
    have h := batchTableFromCols_readInt (selectVals t.CNAMs "" sel)
      (t.stringAttribs.map fun p => (p.1, selectVals p.2 "" sel))
      (t.integerAttribs.map fun p => (p.1, selectVals p.2 0 sel))
      (t.doubleAttribs.map fun p => (p.1, selectVals p.2 0 sel))
      sel.length a j (selCols_len _ _ _) (selCols_int_range _ _ hint)
      (by simpa using ha) hj
    rw [getD_map_lt t.integerAttribs a ha _ ("", [])] at h
    rw [selectVals_getD _ _ _ j hj] at h
    exact h
  · intro d j hd hj
    have h := batchTableFromCols_readDouble (selectVals t.CNAMs "" sel)
      (t.stringAttribs.map fun p => (p.1, selectVals p.2 "" sel))
      (t.integerAttribs.map fun p => (p.1, selectVals p.2 0 sel))
      (t.doubleAttribs.map fun p => (p.1, selectVals p.2 0 sel))
      sel.length d j (selCols_len _ _ _) (selCols_len _ _ _)
      (selCols_dbl_range _ _ hdbl) (by simpa using hd) hj
    rw [getD_map_lt t.doubleAttribs d hd _ ("", [])] at h
    rw [selectVals_getD _ _ _ j hj] at h
    exact h
  · intro bj a j ha hj
    exact batchTableFromCols_readInt t.CNAMs t.stringAttribs t.integerAttribs
      t.doubleAttribs t.instancesCount a j hwf.2.1 hint ha hj
  · intro bj d j hd hj
    exact batchTableFromCols_readDouble t.CNAMs t.stringAttribs t.integerAttribs
      t.doubleAttribs t.instancesCount d j hwf.2.1 hwf.2.2.1 hdbl hd hj

/-- Witness for the round-trip theorem at a concrete table and selection. -/
theorem batch_table_binary_roundtrip_witness :
    readInt32 (i3dmBatchTable ⟨2, ["a", "b"], [("HGT", [5, -7])], [("AO1", [3, 4])],
        [("MODL", ["u", "v"])]⟩ [1, 0]).2
      (((i3dmBatchTable ⟨2, ["a", "b"], [("HGT", [5, -7])], [("AO1", [3, 4])],
          [("MODL", ["u", "v"])]⟩ [1, 0]).1.intEntries.getD 0
          ⟨"", 0, "", ""⟩).byteOffset + 4 * 0) = -7 := by
  have h := (batch_table_binary_roundtrip
    ⟨2, ["a", "b"], [("HGT", [5, -7])], [("AO1", [3, 4])], [("MODL", ["u", "v"])]⟩
    [1, 0] (by decide) (by decide) (by decide)
    (by refine ⟨rfl, ?_, ?_, ?_⟩ <;> decide)).1 0 0 (by decide) (by decide)
  simpa using h

end CDBTo3DTiles

namespace CDBTo3DTiles

/-- Claim C3: layout of the packed batch-table binary — integer attributes first
(4 bytes per value, enumeration order, starting at offset 0), the running
offset rounded up to the next multiple of 8, then the double attributes
(8 bytes per value, no inter-attribute padding); the CNAM identifier column
and string attributes appear only as JSON string arrays and contribute no
bytes to the binary buffer. -/
theorem batch_table_layout :
    (∀ (t : CDBInstancesAttributes) (sel : List Nat) (a : Nat),
      a < t.integerAttribs.length →
      (i3dmBatchTable t sel).1.intEntries.getD a ⟨"", 0, "", ""⟩
        = ⟨(t.integerAttribs.getD a ("", [])).1, 4 * sel.length * a, "SCALAR", "INT"⟩) ∧
    (∀ (t : CDBInstancesAttributes) (sel : List Nat) (d : Nat),
      d < t.doubleAttribs.length →
      (i3dmBatchTable t sel).1.doubleEntries.getD d ⟨"", 0, "", ""⟩
        = ⟨(t.doubleAttribs.getD d ("", [])).1,
           roundUp (4 * sel.length * t.integerAttribs.length) 8 + 8 * sel.length * d,
           "SCALAR", "DOUBLE"⟩) ∧
    (∀ (t : CDBInstancesAttributes) (sel : List Nat),
      (i3dmBatchTable t sel).2.length
        = roundUp (4 * sel.length * t.integerAttribs.length) 8
          + 8 * sel.length * t.doubleAttribs.length) ∧
    (∀ (t : CDBInstancesAttributes) (sel : List Nat),
      (i3dmBatchTable t sel).1.cnam = selectVals t.CNAMs "" sel ∧
      (i3dmBatchTable t sel).1.stringCols
        = t.stringAttribs.map fun p => (p.1, selectVals p.2 "" sel)) ∧
    (∀ (t : CDBInstancesAttributes) (sel : List Nat) (cnams2 : List String)
      (strs2 : List (String × List String)),
      (i3dmBatchTable { t with CNAMs := cnams2, stringAttribs := strs2 } sel).2
        = (i3dmBatchTable t sel).2) ∧
    (∀ (bj : Nat) (t : CDBInstancesAttributes), wellFormed t →
      (∀ a : Nat, a < t.integerAttribs.length →
        ((createBatchTable bj (some t)).jsonDesc.getD
            ⟨[], [], [], []⟩).intEntries.getD a ⟨"", 0, "", ""⟩
          = ⟨(t.integerAttribs.getD a ("", [])).1, 4 * t.instancesCount * a,
             "SCALAR", "INT"⟩) ∧
      (∀ d : Nat, d < t.doubleAttribs.length →
        ((createBatchTable bj (some t)).jsonDesc.getD
            ⟨[], [], [], []⟩).doubleEntries.getD d ⟨"", 0, "", ""⟩
          = ⟨(t.doubleAttribs.getD d ("", [])).1,
             roundUp (4 * t.instancesCount * t.integerAttribs.length) 8
               + 8 * t.instancesCount * d, "SCALAR", "DOUBLE"⟩) ∧
      (createBatchTable bj (some t)).buffer.length
        = roundUp (4 * t.instancesCount * t.integerAttribs.length) 8
          + 8 * t.instancesCount * t.doubleAttribs.length ∧
      ((createBatchTable bj (some t)).jsonDesc.getD ⟨[], [], [], []⟩).cnam = t.CNAMs ∧
      ((createBatchTable bj (some t)).jsonDesc.getD ⟨[], [], [], []⟩).stringCols
        = t.stringAttribs) := by
  refine ⟨?_, ?_, ?_, fun t sel => ⟨rfl, rfl⟩, fun t sel c2 s2 => rfl, ?_⟩
  · intro t sel a ha
    have h := batchTableFromCols_intEntry (selectVals t.CNAMs "" sel)
      (t.stringAttribs.map fun p => (p.1, selectVals p.2 "" sel))
      (t.integerAttribs.map fun p => (p.1, selectVals p.2 0 sel))
      (t.doubleAttribs.map fun p => (p.1, selectVals p.2 0 sel))
      sel.length a (selCols_len _ _ _) (by simpa using ha)
    rw [getD_map_lt t.integerAttribs a ha _ ("", [])] at h
    exact h
  · intro t sel d hd
    have h := batchTableFromCols_doubleEntry (selectVals t.CNAMs "" sel)
      (t.stringAttribs.map fun p => (p.1, selectVals p.2 "" sel))
      (t.integerAttribs.map fun p => (p.1, selectVals p.2 0 sel))
      (t.doubleAttribs.map fun p => (p.1, selectVals p.2 0 sel))
      sel.length d (selCols_len _ _ _) (selCols_len _ _ _) (by simpa using hd)
    rw [getD_map_lt t.doubleAttribs d hd _ ("", [])] at h
    simpa using h
  · intro t sel
    have h := batchTableFromCols_snd_length (selectVals t.CNAMs "" sel)
      (t.stringAttribs.map fun p => (p.1, selectVals p.2 "" sel))
      (t.integerAttribs.map fun p => (p.1, selectVals p.2 0 sel))
      (t.doubleAttribs.map fun p => (p.1, selectVals p.2 0 sel))
      sel.length (selCols_len _ _ _) (selCols_len _ _ _)
    simpa using h
  · intro bj t hwf
    refine ⟨?_, ?_, ?_, rfl, rfl⟩
    · intro a ha
      exact batchTableFromCols_intEntry t.CNAMs t.stringAttribs t.integerAttribs
        t.doubleAttribs t.instancesCount a hwf.2.1 ha
    · intro d hd
      exact batchTableFromCols_doubleEntry t.CNAMs t.stringAttribs t.integerAttribs
        t.doubleAttribs t.instancesCount d hwf.2.1 hwf.2.2.1 hd
    · exact batchTableFromCols_snd_length t.CNAMs t.stringAttribs t.integerAttribs
        t.doubleAttribs t.instancesCount hwf.2.1 hwf.2.2.1

/-- Witness for the layout theorem at a concrete table. -/
theorem batch_table_layout_witness :
    (i3dmBatchTable ⟨2, ["a", "b"], [("HGT", [5, -7])], [("AO1", [3, 4])],
        [("MODL", ["u", "v"])]⟩ [1, 0]).1.doubleEntries.getD 0 ⟨"", 0, "", ""⟩
      = ⟨"AO1", 8, "SCALAR", "DOUBLE"⟩ := by
  have h := batch_table_layout.2.1
    ⟨2, ["a", "b"], [("HGT", [5, -7])], [("AO1", [3, 4])], [("MODL", ["u", "v"])]⟩
    [1, 0] 0 (by decide)
  simpa using h

end CDBTo3DTiles

namespace CDBTo3DTiles

theorem packDoubleColumns_snd_dvd (cols : List (String × List Nat)) (off : Nat) :
    8 ∣ (packDoubleColumns cols off).2.length := by
  induction cols generalizing off with
  | nil => simp [packDoubleColumns]
  | cons c rest ih =>
    obtain ⟨name, vals⟩ := c
    simp only [packDoubleColumns, List.length_append, flatMap_enc64_length]
    have := ih (off + 8 * vals.length)
    omega

theorem batchTableFromCols_snd_dvd (cnams : List String)
    (strCols : List (String × List String)) (intCols : List (String × List Int))
    (dblCols : List (String × List Nat)) :
    8 ∣ (batchTableFromCols cnams strCols intCols dblCols).2.length := by
  show 8 ∣ ((packIntColumns intCols 0).2
      ++ List.replicate (roundUp (packIntColumns intCols 0).2.length 8
            - (packIntColumns intCols 0).2.length) 0
      ++ (packDoubleColumns dblCols (roundUp (packIntColumns intCols 0).2.length 8)).2).length
  have h1 := le_roundUp_eight (packIntColumns intCols 0).2.length
  have h2 := roundUp_eight_dvd (packIntColumns intCols 0).2.length
  have h3 := packDoubleColumns_snd_dvd dblCols (roundUp (packIntColumns intCols 0).2.length 8)
  simp only [List.length_append, List.length_replicate]
  omega

/-- Claim C1 (amended): all binary sections, the i3dm JSON sections and the
padded payloads are multiples of 8 after padding; the b3dm feature-table
JSON is instead padded so that the 28-byte header plus the JSON is a
multiple of 8 (its own length is ≡ 4 mod 8 in general); and each header's
`byteLength` equals the exact sum of the header size and all padded section
lengths whenever that sum fits in 32 bits. -/
theorem tile_writers_alignment_and_total :
    (∀ (fjDump bjDump uriDump : Nat) (t : CDBInstancesAttributes) (sel : List Nat),
      8 ∣ (writeToI3DM fjDump bjDump uriDump t sel).featureJsonLen ∧
      8 ∣ (writeToI3DM fjDump bjDump uriDump t sel).featureBinLen ∧
      8 ∣ (writeToI3DM fjDump bjDump uriDump t sel).batchJsonLen ∧
      8 ∣ (writeToI3DM fjDump bjDump uriDump t sel).batchBinLen ∧
      8 ∣ (writeToI3DM fjDump bjDump uriDump t sel).uriLen ∧
      (32 + (writeToI3DM fjDump bjDump uriDump t sel).featureJsonLen
          + (writeToI3DM fjDump bjDump uriDump t sel).featureBinLen
          + (writeToI3DM fjDump bjDump uriDump t sel).batchJsonLen
          + (writeToI3DM fjDump bjDump uriDump t sel).batchBinLen
          + (writeToI3DM fjDump bjDump uriDump t sel).uriLen < 4294967296 →
        (writeToI3DM fjDump bjDump uriDump t sel).byteLength
          = 32 + (writeToI3DM fjDump bjDump uriDump t sel).featureJsonLen
            + (writeToI3DM fjDump bjDump uriDump t sel).featureBinLen
            + (writeToI3DM fjDump bjDump uriDump t sel).batchJsonLen
            + (writeToI3DM fjDump bjDump uriDump t sel).batchBinLen
            + (writeToI3DM fjDump bjDump uriDump t sel).uriLen)) ∧
    (∀ (glbDump bjDump : Nat) (t? : Option CDBInstancesAttributes),
      8 ∣ (28 + (writeToB3DM glbDump bjDump t?).featureJsonLen) ∧
      8 ∣ (writeToB3DM glbDump bjDump t?).batchJsonLen ∧
      8 ∣ (writeToB3DM glbDump bjDump t?).batchBinLen ∧
      8 ∣ (writeToB3DM glbDump bjDump t?).payloadLen ∧
      (28 + (writeToB3DM glbDump bjDump t?).featureJsonLen
          + (writeToB3DM glbDump bjDump t?).batchJsonLen
          + (writeToB3DM glbDump bjDump t?).batchBinLen
          + (writeToB3DM glbDump bjDump t?).payloadLen < 4294967296 →
        (writeToB3DM glbDump bjDump t?).byteLength
          = 28 + (writeToB3DM glbDump bjDump t?).featureJsonLen
            + (writeToB3DM glbDump bjDump t?).batchJsonLen
            + (writeToB3DM glbDump bjDump t?).batchBinLen
            + (writeToB3DM glbDump bjDump t?).payloadLen)) := by
  constructor
  · intro fjDump bjDump uriDump t sel
    refine ⟨?_, ?_, ?_, ?_, ?_, ?_⟩
    · show 8 ∣ fjDump + (roundUp (32 + fjDump) 8 - (32 + fjDump))
      have h1 := roundUp_eight_dvd (32 + fjDump)
      have h2 := le_roundUp_eight (32 + fjDump)
      omega
    · exact roundUp_eight_dvd _
    · show 8 ∣ bjDump + (roundUp bjDump 8 - bjDump)
      have h1 := roundUp_eight_dvd bjDump
      have h2 := le_roundUp_eight bjDump
      omega
    · exact batchTableFromCols_snd_dvd (selectVals t.CNAMs "" sel)
        (t.stringAttribs.map fun p => (p.1, selectVals p.2 "" sel))
        (t.integerAttribs.map fun p => (p.1, selectVals p.2 0 sel))
        (t.doubleAttribs.map fun p => (p.1, selectVals p.2 0 sel))
    · show 8 ∣ uriDump + (roundUp uriDump 8 - uriDump)
      have h1 := roundUp_eight_dvd uriDump
      have h2 := le_roundUp_eight uriDump
      omega
    · intro h
      exact Nat.mod_eq_of_lt h
  · intro glbDump bjDump t?
    refine ⟨?_, ?_, ?_, ?_, ?_⟩
    · show 8 ∣ 28 + ((b3dmFeatureTableStr t?).length
        + (roundUp (28 + (b3dmFeatureTableStr t?).length) 8
            - (28 + (b3dmFeatureTableStr t?).length)))
      have h1 := roundUp_eight_dvd (28 + (b3dmFeatureTableStr t?).length)
      have h2 := le_roundUp_eight (28 + (b3dmFeatureTableStr t?).length)
      omega
    · cases t? with
      | none => exact ⟨0, rfl⟩
      | some t => exact roundUp_eight_dvd _
    · cases t? with
      | none => exact ⟨0, rfl⟩
      | some t =>
        exact batchTableFromCols_snd_dvd t.CNAMs t.stringAttribs t.integerAttribs
          t.doubleAttribs
    · exact roundUp_eight_dvd _
    · intro h
      exact Nat.mod_eq_of_lt h

/-- Counterexample to claim C1 as stated: for the batched-model writer with no
attribute table and an empty scene payload, the padded feature-table JSON
section is 20 bytes long, which is not a multiple of 8 (the padding aligns
header + JSON, and the b3dm header is 28 bytes). -/
theorem b3dm_feature_json_not_octet_aligned :
    (writeToB3DM 0 0 none).featureJsonLen = 20 ∧
    ¬ 8 ∣ (writeToB3DM 0 0 none).featureJsonLen := by
  constructor <;> decide

/-- Witness for the alignment/total theorem at concrete inputs. -/
theorem tile_writers_alignment_and_total_witness :
    (writeToI3DM 0 0 0 ⟨0, [], [], [], []⟩ []).byteLength = 32
      + (writeToI3DM 0 0 0 ⟨0, [], [], [], []⟩ []).featureJsonLen
      + (writeToI3DM 0 0 0 ⟨0, [], [], [], []⟩ []).featureBinLen
      + (writeToI3DM 0 0 0 ⟨0, [], [], [], []⟩ []).batchJsonLen
      + (writeToI3DM 0 0 0 ⟨0, [], [], [], []⟩ []).batchBinLen
      + (writeToI3DM 0 0 0 ⟨0, [], [], [], []⟩ []).uriLen := by
  exact (tile_writers_alignment_and_total.1 0 0 0 ⟨0, [], [], [], []⟩ []).2.2.2.2.2
    (by decide)

end CDBTo3DTiles

namespace CDBTo3DTiles

theorem readUint32_cmptHeader_eight (b t : Nat) (rest : List Nat) :
    readUint32 (cmptHeaderBytes b t ++ rest) 8 = b % 4294967296 := by
  have h : readUint32 (cmptHeaderBytes b t ++ rest) 8
      = b % 256 + 256 * (b / 256 % 256) + 65536 * (b / 65536 % 256)
        + 16777216 * (b / 16777216 % 256) := rfl
  rw [h]
  omega

theorem readUint32_cmptHeader_twelve (b t : Nat) (rest : List Nat) :
    readUint32 (cmptHeaderBytes b t ++ rest) 12 = t % 4294967296 := by
  have h : readUint32 (cmptHeaderBytes b t ++ rest) 12
      = t % 256 + 256 * (t / 256 % 256) + 65536 * (t / 65536 % 256)
        + 16777216 * (t / 16777216 % 256) := rfl
  rw [h]
  omega

theorem writeToCMPT_eq (numOfTiles : Nat) (f : Nat → List Nat × Nat) :
    writeToCMPT numOfTiles f
      = cmptHeaderBytes
          ((16 + ((List.range numOfTiles).map fun i => (f i).2 % 4294967296).sum)
            % 4294967296)
          (numOfTiles % 4294967296)
        ++ ((List.range numOfTiles).map fun i => (f i).1).flatten := by
  rw [writeToCMPT]
  simp only [List.map_map]
  rfl

/-- Claim C5: a composite tile with zero sub-tiles is exactly the 16-byte header
with `byteLength` 16; in general the rewritten header records `tileCount =
numOfTiles` and `byteLength` equal to the header size plus the sum of the
values returned by the sub-tile callback (when those fit in 32 bits). -/
theorem cmpt_header_totals :
    (∀ f : Nat → List Nat × Nat,
      writeToCMPT 0 f = cmptHeaderBytes 16 0 ∧ (writeToCMPT 0 f).length = 16) ∧
    (∀ (numOfTiles : Nat) (f : Nat → List Nat × Nat),
      numOfTiles < 4294967296 →
      (∀ i, i < numOfTiles → (f i).2 < 4294967296) →
      16 + ((List.range numOfTiles).map fun i => (f i).2).sum < 4294967296 →
      readUint32 (writeToCMPT numOfTiles f) 8
          = 16 + ((List.range numOfTiles).map fun i => (f i).2).sum ∧
      readUint32 (writeToCMPT numOfTiles f) 12 = numOfTiles) := by
  constructor
  · intro f
    exact ⟨rfl, rfl⟩
  · intro numOfTiles f hN hret hsum
    have hmap : ((List.range numOfTiles).map fun i => (f i).2 % 4294967296)
        = (List.range numOfTiles).map fun i => (f i).2 := by
      apply List.map_congr_left
      intro i hi
      exact Nat.mod_eq_of_lt (hret i (List.mem_range.mp hi))
    rw [writeToCMPT_eq, hmap, readUint32_cmptHeader_eight, readUint32_cmptHeader_twelve]
    omega

end CDBTo3DTiles

namespace CDBTo3DTiles

/-- Witness for the composite-tile theorem at two concrete sub-tiles. -/
theorem cmpt_header_totals_witness :
    readUint32 (writeToCMPT 2 fun _ => ([1, 2], 8)) 8 = 32 ∧
    readUint32 (writeToCMPT 2 fun _ => ([1, 2], 8)) 12 = 2 := by
  have h := cmpt_header_totals.2 2 (fun _ => ([1, 2], 8)) (by decide)
    (fun i _ => by show (8 : Nat) < 4294967296; decide) (by decide)
  simpa using h

/-- Claim C7: with a null attribute table the packer leaves the descriptor string
and the binary buffer empty, and the batched-model feature table is the
single-key object `{"BATCH_LENGTH":0}`. -/
theorem null_table_empty_outputs :
    ∀ bjDump glbDump : Nat,
      createBatchTable bjDump none = ⟨none, 0, []⟩ ∧
      (writeToB3DM glbDump bjDump none).featureJson = "\x7b\"BATCH_LENGTH\":0\x7d" ∧
      (writeToB3DM glbDump bjDump none).batchJsonLen = 0 ∧
      (writeToB3DM glbDump bjDump none).batchBinLen = 0 := by
  intro bjDump glbDump
  exact ⟨rfl, rfl, rfl, rfl⟩

/-- Claim C8: encoding with an empty selection-index list yields a zero-length
feature-table binary, a zero-length batch-table binary, an empty CNAM
array, and empty arrays for every string attribute. -/
theorem i3dm_empty_selection :
    ∀ (fjDump bjDump uriDump : Nat) (t : CDBInstancesAttributes),
      (writeToI3DM fjDump bjDump uriDump t []).featureBinLen = 0 ∧
      (writeToI3DM fjDump bjDump uriDump t []).batchBinLen = 0 ∧
      (writeToI3DM fjDump bjDump uriDump t []).batchDesc.cnam = [] ∧
      ∀ p ∈ (writeToI3DM fjDump bjDump uriDump t []).batchDesc.stringCols, p.2 = [] := by
  intro fjDump bjDump uriDump t
  refine ⟨rfl, ?_, rfl, ?_⟩
  · show (i3dmBatchTable t []).2.length = 0
    have h := batchTableFromCols_snd_length (selectVals t.CNAMs "" [])
      (t.stringAttribs.map fun p => (p.1, selectVals p.2 "" []))
      (t.integerAttribs.map fun p => (p.1, selectVals p.2 0 []))
      (t.doubleAttribs.map fun p => (p.1, selectVals p.2 0 []))
      0 (selCols_len _ _ _) (selCols_len _ _ _)
    simpa [roundUp] using h
  · intro p hp
    show p.2 = []
    have : p ∈ t.stringAttribs.map fun q => (q.1, selectVals q.2 "" []) := hp
    simp only [List.mem_map] at this
    obtain ⟨q, _, rfl⟩ := this
    rfl

/-- Witness for the empty-selection theorem at a concrete table. -/
theorem i3dm_empty_selection_witness :
    (writeToI3DM 3 5 7 ⟨2, ["a", "b"], [("HGT", [5, -7])], [("AO1", [3, 4])],
        [("MODL", ["u", "v"])]⟩ []).batchBinLen = 0 ∧
    ((writeToI3DM 3 5 7 ⟨2, ["a", "b"], [("HGT", [5, -7])], [("AO1", [3, 4])],
        [("MODL", ["u", "v"])]⟩ []).batchDesc.stringCols.getD 0 ("", ["x"])).2 = [] := by
  have h := i3dm_empty_selection 3 5 7
    ⟨2, ["a", "b"], [("HGT", [5, -7])], [("AO1", [3, 4])], [("MODL", ["u", "v"])]⟩
  exact ⟨h.2.1, h.2.2.2 _ (by decide)⟩

end CDBTo3DTiles

namespace CDBTo3DTiles

theorem convertChildren_eq (slots : List (Option CDBTile)) (e : ℚ) :
    convertChildren slots e
      = (slots.filterMap id).map fun c => convertTilesetToJson c e := by
  induction slots with
  | nil => rfl
  | cons s rest ih =>
    cases s with
    | none => simpa [convertChildren] using ih
    | some c => simp [convertChildren, ih]

/-- Claim C4 (amended): a node whose child-slot list is empty serializes with
geometric error exactly 0; a node with a non-empty child-slot list (even if
every slot is null) serializes with the caller's error E, and its emitted
children are exactly the non-null slots, each serialized with error E / 2. -/
theorem tileset_geometric_error (region : BoundingRegion) (uri : Option String)
    (children : List (Option CDBTile)) (e : ℚ) :
    (children = [] →
      (convertTilesetToJson (.mk region uri children) e).geometricError = 0) ∧
    (children ≠ [] →
      (convertTilesetToJson (.mk region uri children) e).geometricError = e ∧
      (convertTilesetToJson (.mk region uri children) e).childJsons
        = (children.filterMap id).map fun c => convertTilesetToJson c (e / 2)) := by
  constructor
  · rintro rfl
    simp [convertTilesetToJson, TileJson.geometricError]
  · intro hne
    have hnotempty : children.isEmpty = false := by
      cases children with
      | nil => exact absurd rfl hne
      | cons a l => rfl
    constructor
    · simp [convertTilesetToJson, hnotempty, TileJson.geometricError]
    · simp [convertTilesetToJson, hnotempty, TileJson.childJsons, convertChildren_eq]

/-- Counterexample to claim C4 as stated: the node below has no non-empty child
(the single slot is null), yet its serialized geometric error is the
caller's error 1, not 0 — the source tests `children.empty()` on the slot
list, not the absence of non-null children. -/
theorem tileset_geometric_error_counterexample :
    (CDBTile.mk ⟨0, 0, 0, 0, 0, 0⟩ none [none]).children.filterMap id = [] ∧
    (convertTilesetToJson (CDBTile.mk ⟨0, 0, 0, 0, 0, 0⟩ none [none]) 1).geometricError
      = 1 ∧ (1 : ℚ) ≠ 0 := by
  refine ⟨rfl, ?_, by norm_num⟩
  rw [convertTilesetToJson]
  simp [TileJson.geometricError]

/-- Witness for the geometric-error theorem at concrete tiles. -/
theorem tileset_geometric_error_witness :
    (convertTilesetToJson (CDBTile.mk ⟨0, 0, 0, 0, 0, 0⟩ none []) 5).geometricError
      = 0 ∧
    (convertTilesetToJson (CDBTile.mk ⟨0, 0, 0, 0, 0, 0⟩ (some "c.json")
        [some (CDBTile.mk ⟨0, 0, 0, 0, 0, 0⟩ none []), none]) 5).geometricError = 5 := by
  exact ⟨(tileset_geometric_error ⟨0, 0, 0, 0, 0, 0⟩ none [] 5).1 rfl,
    ((tileset_geometric_error ⟨0, 0, 0, 0, 0, 0⟩ (some "c.json")
      [some (CDBTile.mk ⟨0, 0, 0, 0, 0, 0⟩ none []), none] 5).2 (by simp)).1⟩

theorem computeUnion_self (r : BoundingRegion) : computeUnion r r = r := by
  cases r
  simp [computeUnion]

theorem readRegions_of_le (regions : List BoundingRegion) (n : Nat)
    (h : n ≤ regions.length) :
    readRegions regions n = some (regions.take n) := by
  induction n with
  | zero => rfl
  | succ k ih =>
    have hlt : k < regions.length := by omega
    rw [readRegions, ih (by omega), List.getElem?_eq_getElem hlt]
    show some (regions.take k ++ [regions[k]]) = some (regions.take (k + 1))
    rw [List.take_succ, List.getElem?_eq_getElem hlt]
    rfl

theorem readRegions_of_gt (regions : List BoundingRegion) (n : Nat)
    (h : regions.length < n) :
    readRegions regions n = none := by
  induction n with
  | zero => omega
  | succ k ih =>
    by_cases hk : regions.length < k
    · rw [readRegions, ih hk]
      rfl
    · have hk2 : regions.length ≤ k := by omega
      cases h' : readRegions regions k with
      | none => rw [readRegions, h']; rfl
      | some l =>
        rw [readRegions, h', List.getElem?_eq_none hk2]
        rfl

theorem combineTilesetJson_some (paths : List String) (r0 : BoundingRegion)
    (rest : List BoundingRegion) (u : Bool) (childRegions : List BoundingRegion)
    (h2 : readRegions (r0 :: rest) paths.length = some childRegions) :
    combineTilesetJson paths (r0 :: rest) u = some
      { rootRefine := "ADD", rootGeometricError := maxGeometricError,
        rootContent := none, childrenGeometricError := maxGeometricError,
        children := paths.zip (childRegions.map regionSix),
        rootRegion := regionSix (childRegions.foldl computeUnion r0),
        extensionsUsed := if u then ["3DTILES_content_gltf"] else [],
        extensionsRequired := if u then ["3DTILES_content_gltf"] else [] } := by
  unfold combineTilesetJson
  rw [List.head?_cons, h2]
  rfl

theorem combineTilesetJson_none (paths : List String) (regions : List BoundingRegion)
    (u : Bool) (h2 : readRegions regions paths.length = none) :
    combineTilesetJson paths regions u = none := by
  unfold combineTilesetJson
  cases regions with
  | nil => rfl
  | cons r0 rest =>
    rw [List.head?_cons, h2]
    rfl

/-- Claim C6: merging a non-empty list of tileset paths with paired regions
yields a wrapper whose root has no content, refines additively, lists every
input as a child with its own region, and takes as its own region the
`computeUnion` fold of the child regions starting from the first one; in
particular regions (0,0,1,1) and (2,2,3,3) merge to root region (0,0,3,3). -/
theorem combine_tilesets_spec :
    (∀ (paths : List String) (r0 : BoundingRegion) (rest : List BoundingRegion)
      (u : Bool), paths ≠ [] → paths.length = rest.length + 1 →
      ∃ out, combineTilesetJson paths (r0 :: rest) u = some out ∧
        out.rootContent = none ∧
        out.rootRefine = "ADD" ∧
        out.children = paths.zip ((r0 :: rest).map regionSix) ∧
        out.rootRegion = regionSix (rest.foldl computeUnion r0)) ∧
    (combineTilesetJson ["a.json", "b.json"]
        [⟨0, 0, 1, 1, 0, 0⟩, ⟨2, 2, 3, 3, 0, 0⟩] false).map (fun o => o.rootRegion)
      = some [0, 0, 3, 3, 0, 0] := by
  constructor
  · intro paths r0 rest u hne hlen
    have htake : (r0 :: rest).take paths.length = r0 :: rest := by
      rw [hlen, ← List.length_cons r0 rest]
      exact List.take_length _
    have hsome := readRegions_of_le (r0 :: rest) paths.length (by simp; omega)
    rw [htake] at hsome
    have hfold : (r0 :: rest).foldl computeUnion r0 = rest.foldl computeUnion r0 := by
      rw [List.foldl_cons, computeUnion_self]
    have heq := combineTilesetJson_some paths r0 rest u (r0 :: rest) hsome
    rw [hfold] at heq
    exact ⟨_, heq, rfl, rfl, rfl, rfl⟩
  · rfl

/-- Witness for the merge theorem at two concrete tilesets. -/
theorem combine_tilesets_spec_witness :
    ∃ out, combineTilesetJson ["a.json", "b.json"]
        [⟨0, 0, 1, 1, 0, 0⟩, ⟨2, 2, 3, 3, 0, 0⟩] false = some out ∧
      out.rootContent = none ∧
      out.rootRefine = "ADD" ∧
      out.children = ["a.json", "b.json"].zip
        ([⟨0, 0, 1, 1, 0, 0⟩, ⟨2, 2, 3, 3, 0, 0⟩].map regionSix) ∧
      out.rootRegion = regionSix ([⟨2, 2, 3, 3, 0, 0⟩].foldl computeUnion
        ⟨0, 0, 1, 1, 0, 0⟩) := by
  exact combine_tilesets_spec.1 ["a.json", "b.json"] ⟨0, 0, 1, 1, 0, 0⟩
    [⟨2, 2, 3, 3, 0, 0⟩] false (by simp) rfl

/-- Claim C10: the merge reads `regions.front()` unconditionally and `regions[i]`
for every path index, so it produces a result exactly when the regions list
is non-empty and at least as long as the paths list; with an empty regions
list the access is out of range. -/
theorem combine_tilesets_precondition :
    (∀ (paths : List String) (u : Bool), combineTilesetJson paths [] u = none) ∧
    (∀ (paths : List String) (regions : List BoundingRegion) (u : Bool),
      (combineTilesetJson paths regions u).isSome ↔
        (regions ≠ [] ∧ paths.length ≤ regions.length)) := by
  constructor
  · intro paths u
    rfl
  · intro paths regions u
    cases regions with
    | nil =>
      have h0 : combineTilesetJson paths [] u = none := rfl
      simp [h0]
    | cons r0 rest =>
      by_cases h : paths.length ≤ rest.length + 1
      · have hr := readRegions_of_le (r0 :: rest) paths.length (by simp; omega)
        have heq := combineTilesetJson_some paths r0 rest u _ hr
        simp [heq, h]
      · have hr := readRegions_of_gt (r0 :: rest) paths.length (by simp; omega)
        have heq := combineTilesetJson_none paths (r0 :: rest) u hr
        simp [heq, h]

end CDBTo3DTiles

namespace CDBTo3DTiles

theorem parseObjEntries_eq (es : List (String × NJson)) :
    parseObjEntries es
      = (es.map fun p => (p.1, ParseJsonAsValue p.2)).filter fun p => !p.2.isNull := by
  induction es with
  | nil => rfl
  | cons p rest ih =>
    obtain ⟨k, v⟩ := p
    by_cases h : (ParseJsonAsValue v).isNull = true
    · simp [parseObjEntries, h, ih]
    · simp [parseObjEntries, h, ih]

theorem parseArrItems_eq (xs : List NJson) :
    parseArrItems xs = (xs.map ParseJsonAsValue).filter fun v => !v.isNull := by
  induction xs with
  | nil => rfl
  | cons v rest ih =>
    by_cases h : (ParseJsonAsValue v).isNull = true
    · simp [parseArrItems, h, ih]
    · simp [parseArrItems, h, ih]

theorem wrap32_mod_64 (n : Nat) :
    wrap32 ((n : Int) % 18446744073709551616) = wrap32 (n : Int) := by
  simp only [wrap32]
  split <;> split <;> omega

/-- Claim C9 (amended): empty objects, empty arrays, null and unrecognized node
kinds all translate to the absent null-typed value; container entries whose
translation is absent are omitted, and a container left empty by that
omission also collapses to absent; strings, booleans and floats translate
to the corresponding tagged value; integer kinds translate to the tagged
integer value truncated to 32 bits (`static_cast<int>`), which is the
corresponding value exactly when it fits in a 32-bit int. -/
theorem parse_json_as_value_spec :
    ParseJsonAsValue (NJson.obj []) = GValue.nullv ∧
    ParseJsonAsValue (NJson.arr []) = GValue.nullv ∧
    ParseJsonAsValue NJson.null = GValue.nullv ∧
    ParseJsonAsValue NJson.discarded = GValue.nullv ∧
    (∀ s, ParseJsonAsValue (NJson.str s) = GValue.stringVal s) ∧
    (∀ b, ParseJsonAsValue (NJson.boolean b) = GValue.boolVal b) ∧
    (∀ q, ParseJsonAsValue (NJson.floatNum q) = GValue.realVal q) ∧
    (∀ n : Int, ParseJsonAsValue (NJson.intNum n) = GValue.intVal (wrap32 n)) ∧
    (∀ n : Int, -2147483648 ≤ n → n < 2147483648 →
      ParseJsonAsValue (NJson.intNum n) = GValue.intVal n) ∧
    (∀ n : Nat, ParseJsonAsValue (NJson.uintNum n) = GValue.intVal (wrap32 (n : Int))) ∧
    (∀ es, ParseJsonAsValue (NJson.obj es)
      = (if ((es.map fun p => (p.1, ParseJsonAsValue p.2)).filter
              fun p => !p.2.isNull).isEmpty
         then GValue.nullv
         else GValue.objectVal ((es.map fun p => (p.1, ParseJsonAsValue p.2)).filter
              fun p => !p.2.isNull))) ∧
    (∀ xs, ParseJsonAsValue (NJson.arr xs)
      = (if ((xs.map ParseJsonAsValue).filter fun v => !v.isNull).isEmpty
         then GValue.nullv
         else GValue.arrayVal ((xs.map ParseJsonAsValue).filter fun v => !v.isNull))) := by
  refine ⟨rfl, rfl, rfl, rfl, fun s => rfl, fun b => rfl, fun q => rfl, fun n => rfl,
    ?_, ?_, ?_, ?_⟩
  · intro n h1 h2
    have : wrap32 n = n := by
      simp only [wrap32]
      split <;> omega
    rw [show ParseJsonAsValue (NJson.intNum n) = GValue.intVal (wrap32 n) from rfl, this]
  · intro n
    rw [show ParseJsonAsValue (NJson.uintNum n)
        = GValue.intVal (wrap32 ((n : Int) % 18446744073709551616)) from rfl,
      wrap32_mod_64]
  · intro es
    rw [ParseJsonAsValue, parseObjEntries_eq]
  · intro xs
    rw [ParseJsonAsValue, parseArrItems_eq]

/-- Counterexample to claim C9 as stated: the 64-bit integer 2^31 does not
translate to the corresponding tagged value; `static_cast<int>` truncates
it to -2^31. -/
theorem parse_int_truncation_counterexample :
    ParseJsonAsValue (NJson.intNum 2147483648) = GValue.intVal (-2147483648) ∧
    ParseJsonAsValue (NJson.intNum 2147483648) ≠ GValue.intVal 2147483648 := by
  have he : ParseJsonAsValue (NJson.intNum 2147483648)
      = GValue.intVal (-2147483648) := by
    rw [show ParseJsonAsValue (NJson.intNum 2147483648)
        = GValue.intVal (wrap32 2147483648) from rfl]
    norm_num [wrap32]
  refine ⟨he, ?_⟩
  rw [he]
  intro h
  have h2 := GValue.intVal.inj h
  omega

/-- Witness for the translation theorem: the in-range integer conjunct at a
concrete value. -/
theorem parse_json_as_value_spec_witness :
    ParseJsonAsValue (NJson.intNum 7) = GValue.intVal 7 := by
  exact parse_json_as_value_spec.2.2.2.2.2.2.2.2.1 7 (by norm_num) (by norm_num)

end CDBTo3DTiles
